import Mathlib

/-!
Verification of the klippings program (src/klippings.py): a shallow embedding
of its annotation parser, metadata extractor, context locator and report
writer, together with proofs of the specification's claims about them.

Strings are modelled as `List Char` (one element per Unicode code point, the
same unit Python's `str` indexing and slicing use).  The character class
`\d` of the metadata regular expression and the whitespace class of
`str.strip` are modelled by their ASCII subsets, which cover every input the
claims quantify over.
-/

set_option autoImplicit false

namespace Klippings

/-- Strings as lists of code points, mirroring Python `str`. -/
abbrev Str := List Char

/-- `dropStart? p s` returns `some r` with `s = p ++ r` when `p` is a
leading literal of `s`, else `none`; the basic step of anchored literal
matching (`re.match` semantics). -/
def dropStart? : Str → Str → Option Str
  | [], s => some s
  | _ :: _, [] => none
  | p :: ps, c :: cs => if p = c then dropStart? ps cs else none

/-- Python's `needle in hay` substring test. -/
def containsSub (needle : Str) : Str → Bool
  | [] => needle.isEmpty
  | c :: rest => (dropStart? needle (c :: rest)).isSome || containsSub needle rest

/-- Python's `hay.find(needle)`: index of the first occurrence, `none` when
absent (Python returns `-1`). -/
def findSub (needle : Str) : Str → Option Nat
  | [] => if needle.isEmpty then some 0 else none
  | c :: rest =>
    if (dropStart? needle (c :: rest)).isSome then some 0
    else (findSub needle rest).map (· + 1)

/-- The ASCII whitespace stripped by Python's `str.strip()`.  (Python also
strips further Unicode space characters; U+FEFF is not among them, which is
what matters below.) -/
def pyIsSpace (c : Char) : Bool :=
  c == ' ' || c == '\t' || c == '\n' || c == '\r' || c == '\x0b' || c == '\x0c'

/-- Python's `s.strip()`. -/
def strip (s : Str) : Str :=
  ((s.dropWhile pyIsSpace).reverse.dropWhile pyIsSpace).reverse

/-- Python's `s.lower()`, restricted to ASCII case mapping. -/
def lowerStr (s : Str) : Str := s.map Char.toLower

/-- Worker for `pySplit`.  The fuel argument only drives the recursion;
`pySplit` supplies `s.length`, which is enough for the middle branch never
to be taken when the separator is nonempty. -/
def splitGo (sep : Str) : Nat → Str → Str → List Str
  | _, [], acc => [acc.reverse]
  | 0, s, acc => [acc.reverse ++ s]
  | fuel + 1, c :: rest, acc =>
    match dropStart? sep (c :: rest) with
    | some r => acc.reverse :: splitGo sep fuel r []
    | none => splitGo sep fuel rest (c :: acc)

/-- Python's `s.split(sep)` for a nonempty separator: split at every
non-overlapping occurrence of `sep`, scanning left to right. -/
def pySplit (sep s : Str) : List Str := splitGo sep s.length s []

/-- Python's `"\n".join(lines)`. -/
def joinNL : List Str → Str
  | [] => []
  | [l] => l
  | l :: l2 :: rest => l ++ '\n' :: joinNL (l2 :: rest)

/-! ## Metadata extractor (`parse_meta`, src/klippings.py lines 20-36)

The regular expression

  `- Your (?P<type>Bookmark|Highlight) on (page (?P<pg_only>\d+(-\d+)?)|Location (?P<loc_only>\d+(-\d+)?)|page (?P<pg>\d+) \| Location (?P<loc>\d+(-\d+)?)) \| Added.*`

is embedded as a deterministic matcher.  The only backtracking the pattern
can perform is (a) the three alternatives tried left to right, and (b) the
optional `(-\d+)?` group; `\d+` itself never needs to retry a shorter match
because every literal that can follow a digit group in this pattern starts
with a non-digit character, so a shortened digit run would face a digit and
fail immediately.  Both (a) and (b) are modelled explicitly.  The trailing
`.*` matches any remainder of the line, so it imposes no condition. -/

/-- The named capture groups of the three inner alternatives. -/
structure Groups0 where
  pg_only : Option Str
  loc_only : Option Str
  pg : Option Str
  loc : Option Str
deriving DecidableEq

def yourPre : Str := "- Your ".toList
def bookmarkS : Str := "Bookmark".toList
def highlightS : Str := "Highlight".toList
def onMid : Str := " on ".toList
def pageSp : Str := "page ".toList
def locSp : Str := "Location ".toList
def locMid : Str := " | Location ".toList
def addedTail : Str := " | Added".toList

/-- Match `\d+(-\d+)?` at the head of `s`, then hand the matched text and
the remainder to the continuation `k`; on failure of the continuation after
the optional `-\d+` part was taken, retry without it (the regex engine's
backtracking over the optional group). -/
def tryNumRange (s : Str) (k : Str → Str → Option Groups0) : Option Groups0 :=
  let n := s.takeWhile Char.isDigit
  let r := s.dropWhile Char.isDigit
  if n.isEmpty then none
  else if r.head? = some '-' then
    let m := r.tail.takeWhile Char.isDigit
    if m.isEmpty then k n r
    else
      match k (n ++ '-' :: m) (r.tail.dropWhile Char.isDigit) with
      | some g => some g
      | none => k n r
  else k n r

/-- First alternative: `page (?P<pg_only>\d+(-\d+)?)` followed by ` \| Added`. -/
def alt1 (s : Str) : Option Groups0 :=
  match dropStart? pageSp s with
  | none => none
  | some s2 => tryNumRange s2 fun n r =>
      match dropStart? addedTail r with
      | none => none
      | some _ => some ⟨some n, none, none, none⟩

/-- Second alternative: `Location (?P<loc_only>\d+(-\d+)?)` followed by ` \| Added`. -/
def alt2 (s : Str) : Option Groups0 :=
  match dropStart? locSp s with
  | none => none
  | some s2 => tryNumRange s2 fun n r =>
      match dropStart? addedTail r with
      | none => none
      | some _ => some ⟨none, some n, none, none⟩

/-- Third alternative: `page (?P<pg>\d+) \| Location (?P<loc>\d+(-\d+)?)`
followed by ` \| Added`. -/
def alt3 (s : Str) : Option Groups0 :=
  match dropStart? pageSp s with
  | none => none
  | some s2 =>
    let n := s2.takeWhile Char.isDigit
    if n.isEmpty then none
    else
      match dropStart? locMid (s2.dropWhile Char.isDigit) with
      | none => none
      | some s3 => tryNumRange s3 fun l r =>
          match dropStart? addedTail r with
          | none => none
          | some _ => some ⟨none, none, some n, some l⟩

/-- `Bookmark|Highlight`, tried left to right. -/
def matchKind (s : Str) : Option (Str × Str) :=
  match dropStart? bookmarkS s with
  | some r => some (bookmarkS, r)
  | none =>
    match dropStart? highlightS s with
    | some r => some (highlightS, r)
    | none => none

/-- The full `groupdict()` of a successful match. -/
structure Groups where
  ty : Str
  pg_only : Option Str
  loc_only : Option Str
  pg : Option Str
  loc : Option Str
deriving DecidableEq

/-- The three alternatives of the inner group, tried left to right. -/
def altAll (s : Str) : Option Groups0 :=
  match alt1 s with
  | some g => some g
  | none =>
    match alt2 s with
    | some g => some g
    | none => alt3 s

/-- `re.match` of the metadata pattern against `line`. -/
def matchMeta (line : Str) : Option Groups :=
  match dropStart? yourPre line with
  | none => none
  | some s1 =>
    match matchKind s1 with
    | none => none
    | some (k, s2) =>
      match dropStart? onMid s2 with
      | none => none
      | some s3 =>
        match altAll s3 with
        | none => none
        | some g0 => some ⟨k, g0.pg_only, g0.loc_only, g0.pg, g0.loc⟩

/-- The dictionary `parse_meta` returns. -/
structure MetaFields where
  type : Option Str
  page : Option Str
  location : Option Str
deriving DecidableEq

/-- Python's `a or b` on optional strings (an empty string is falsy; captured
digit groups are never empty, so the emptiness test is never decisive). -/
def pyOr (a b : Option Str) : Option Str :=
  match a with
  | some s => if s.isEmpty then b else some s
  | none => b

/-- `parse_meta` (src/klippings.py lines 20-36): regex match, then
`{'type': type, 'page': pg_only or pg, 'location': loc_only or loc}`,
with every field `None` when the match fails. -/
def parse_meta (line : Str) : MetaFields :=
  match matchMeta line with
  | none => ⟨none, none, none⟩
  | some g => ⟨some g.ty, pyOr g.pg_only g.pg, pyOr g.loc_only g.loc⟩

/-! Sanity checks: the three doctest lines of `parse_meta`. -/

theorem parse_meta_doctest1 :
    parse_meta "- Your Bookmark on Location 2473 | Added on Tuesday, September 2, 2025 12:08:11 AM".toList
      = ⟨some bookmarkS, none, some "2473".toList⟩ := by decide

theorem parse_meta_doctest2 :
    parse_meta "- Your Highlight on page 379 | Location 2805-2806 | Added on Sunday, August 31, 2025 12:10:21 AM".toList
      = ⟨some highlightS, some "379".toList, some "2805-2806".toList⟩ := by decide

theorem parse_meta_doctest3 :
    parse_meta "- Your Bookmark on page 343-344 | Added on Sunday, February 16, 2025 10:08:13 PM".toList
      = ⟨some bookmarkS, some "343-344".toList, none⟩ := by decide

/-! ## Annotation parser (`parse_clippings`, src/klippings.py lines 40-79) -/

/-- One annotation record (the dictionaries built on line 74). -/
structure Note where
  book : Str
  text : Str
  type : Option Str
  page : Option Str
  location : Option Str
deriving DecidableEq

/-- The separator the source splits on: the ten-character string
`==========` (a plain substring split, line 65). -/
def sepTen : Str := "==========".toList

/-- `[line.strip() for line in entry.strip().split("\n") if line.strip()]`
(line 68). -/
def entryLines (entry : Str) : List Str :=
  ((pySplit (['\n']) (strip entry)).map strip).filter (fun l => !l.isEmpty)

/-- Build the record of lines 70-74: first line is the book, second the
metadata line, the rest joined with newlines form the text. -/
def mkNote (book meta : Str) (body : List Str) : Note :=
  let m := parse_meta meta
  ⟨book, joinNL body, m.type, m.page, m.location⟩

/-- The guard of line 69: an entry yields a record exactly when it has at
least three non-blank lines. -/
def parseEntry? (entry : Str) : Option Note :=
  match entryLines entry with
  | book :: meta :: t :: ts => some (mkNote book meta (t :: ts))
  | _ => none

/-- `notes_by_book` as an insertion-ordered association list, the model of a
Python `dict` (lines 66, 72-74): a new book is appended at the end, an
existing book's list grows at its place. -/
def addNote (m : List (Str × List Note)) (book : Str) (a : Note) :
    List (Str × List Note) :=
  match m with
  | [] => [(book, [a])]
  | (k, v) :: rest =>
    if k = book then (k, v ++ [a]) :: rest else (k, v) :: addNote rest book a

/-- Lines 75-78: concatenate the per-book lists in dictionary order. -/
def flattenValues (m : List (Str × List Note)) : List Note :=
  (m.map Prod.snd).flatten

/-- `parse_clippings` (lines 40-79). -/
def parse_clippings (content : Str) : List Note :=
  let entries := pySplit sepTen content
  let notes_by_book := entries.foldl (fun m e =>
    match parseEntry? e with
    | some a => addNote m a.book a
    | none => m) []
  flattenValues notes_by_book

/-- The records of the accepted entries in source order, before grouping. -/
def rawNotes (content : Str) : List Note :=
  (pySplit sepTen content).filterMap parseEntry?

/-- The book titles in order of first appearance. -/
def firstKeys (l : List Note) : List Str :=
  l.foldl (fun ks a => if a.book ∈ ks then ks else ks ++ [a.book]) []

/-- Modelled from the spec (§3, §4.2): the output sequence as the spec words
it — the groups, one per book in order of each book's first annotation,
each group listing that book's annotations in source order, flattened. -/
def specGroup (content : Str) : List Note :=
  ((firstKeys (rawNotes content)).map
    (fun b => (rawNotes content).filter (fun a => a.book == b))).flatten

/-! ## Context locator and text search (src/klippings.py lines 82-124)

The text-extraction capability (ebooklib/BeautifulSoup, pypdf) is external
to the repository; a book file is modelled by what that capability yields
for it: either its ordered plain-text blocks (epub document items, pdf
pages), or a failure.  `keyError` is an open/parse failure raising `KeyError`
(the one exception class `search_epub` catches); `otherError` is any other
open/parse failure. -/

inductive ReadResult where
  | ok (blocks : List Str)
  | keyError
  | otherError
deriving DecidableEq

/-- A library file: its file-name stem and what text extraction does on it.
`rglob("*.epub")` / `rglob("*.pdf")` pre-sort files by extension, so the
format is carried by which `Library` list a file sits in and the
`path.suffix` dispatch of lines 120-123 is determined. -/
structure BookFile where
  stem : Str
  read : ReadResult
deriving DecidableEq

/-- What a search call does: return a value (having possibly printed the
warning of line 97), or let an exception propagate to the caller. -/
structure SearchReturn where
  value : Option Str
  warned : Bool
deriving DecidableEq

inductive SearchOutcome where
  | returns (r : SearchReturn)
  | raises
deriving DecidableEq

/-- The window extraction shared by lines 90-94 and 107-111:
`idx = text.find(note)`; if found, `text[max(0, idx-200) : min(len(text), idx+len(note)+200)]`.
Natural-number subtraction `idx - context` is exactly `max(0, idx - context)`. -/
def searchBlock (note block : Str) (context : Nat := 200) : Option Str :=
  match findSub note block with
  | none => none
  | some idx =>
    let start := idx - context
    let stop := min block.length (idx + note.length + context)
    some ((block.drop start).take (stop - start))

/-- The loop of lines 86-94: first document item containing the note wins. -/
def search_epub_blocks (note : Str) : List Str → Option Str
  | [] => none
  | b :: rest =>
    match searchBlock note b with
    | some w => some w
    | none => search_epub_blocks note rest

/-- The loop of lines 103-112: pages with no extractable text are skipped
(`if not text: continue`). -/
def search_pdf_blocks (note : Str) : List Str → Option Str
  | [] => none
  | b :: rest =>
    if b.isEmpty then search_pdf_blocks note rest
    else
      match searchBlock note b with
      | some w => some w
      | none => search_pdf_blocks note rest

/-- `search_epub` (lines 83-97): the body is wrapped in
`try ... except KeyError`, which prints a warning and falls off the function
(returning `None`); any other exception propagates. -/
def search_epub (f : BookFile) (note : Str) : SearchOutcome :=
  match f.read with
  | .ok blocks => .returns ⟨search_epub_blocks note blocks, false⟩
  | .keyError => .returns ⟨none, true⟩
  | .otherError => .raises

/-- `search_pdf` (lines 101-112): no exception handling at all — any failure
of `PdfReader` propagates. -/
def search_pdf (f : BookFile) (note : Str) : SearchOutcome :=
  match f.read with
  | .ok blocks => .returns ⟨search_pdf_blocks note blocks, false⟩
  | .keyError => .raises
  | .otherError => .raises

structure Library where
  epubs : List BookFile
  pdfs : List BookFile
deriving DecidableEq

/-- `note["book"].split("(")[0].strip().lower()` (line 119). -/
def normKey (book : Str) : Str :=
  lowerStr (strip (book.takeWhile (fun c => c != '(')))

/-- `key in path.stem.lower()` (line 119). -/
def stemMatch (key : Str) (f : BookFile) : Bool :=
  containsSub key (lowerStr f.stem)

/-- One pass of the inner loop of lines 118-123 over one format's files:
on the first stem match, return that file's search result. -/
def findLoop (key note : Str) (srch : BookFile → Str → SearchOutcome) :
    List BookFile → Option SearchOutcome
  | [] => none
  | f :: rest =>
    if stemMatch key f then some (srch f note) else findLoop key note srch rest

/-- `find_context` (lines 116-124): all epub files in traversal order, then
all pdf files; `None` when no stem matches. -/
def find_context (note : Note) (lib : Library) : SearchOutcome :=
  match findLoop (normKey note.book) note.text search_epub lib.epubs with
  | some o => o
  | none =>
    match findLoop (normKey note.book) note.text search_pdf lib.pdfs with
    | some o => o
    | none => .returns ⟨none, false⟩

/-! ## Report writer (`main`, src/klippings.py lines 133-142) -/

def headChunk (n : Note) : Str := "## ".toList ++ n.book ++ "\n\n".toList

def noteChunk (n : Note) : Str := "**Note:** ".toList ++ n.text ++ "\n\n".toList

/-- Lines 138-141: `if context:` — Python truthiness, so `None` and the
empty string both print the `Not found` marker. -/
def contextChunk (ctx : Option Str) : Str :=
  match ctx with
  | some c =>
    if c.isEmpty then "**Context:** Not found\n\n".toList
    else "**Context:** ".toList ++ c ++ "\n\n".toList
  | none => "**Context:** Not found\n\n".toList

def ruleChunk : Str := "---\n\n".toList

/-- The value a search call returned (only meaningful off the `raises`
path, where it is read under a no-raise hypothesis). -/
def returnedValue : SearchOutcome → Option Str
  | .returns r => r.value
  | .raises => none

/-- The writer loop of `main` (lines 134-142) as the source runs it: each
iteration first evaluates `find_context(note, books)`; a raised exception
propagates out of the loop, so nothing more is written — neither the
failing note's record nor any later one (the chunks already written stay in
the file).  Otherwise the four chunks of the note's record are written and
the loop continues.  The result pairs the chunks written, in order, with
whether the run aborted. -/
def writeReport (lib : Library) : List Note → List Str × Bool
  | [] => ([], false)
  | n :: rest =>
    match find_context n lib with
    | .raises => ([], true)
    | .returns r =>
      match writeReport lib rest with
      | (out, ab) =>
        (headChunk n :: noteChunk n :: contextChunk r.value :: ruleChunk :: out, ab)

/-- Modelled from the spec (§4.4): the one record of an annotation — level-2
heading, Note line, Context line (window or `Not found`), horizontal rule. -/
def recordFor (n : Note) (ctx : Option Str) : List Str :=
  [headChunk n, noteChunk n, contextChunk ctx, ruleChunk]

/-! ## Claim-side block counting for C5

The claim describes the record blocks as the segments delimited by a
separator *line* of exactly ten `=` characters; this formalises that
reading, to be compared with the source's substring split. -/

/-- Segments of a line list delimited by lines equal to `==========`. -/
def splitLinesOnSep : List Str → List (List Str)
  | [] => [[]]
  | l :: rest =>
    match splitLinesOnSep rest with
    | [] => [[l]]
    | b :: bs => if l = sepTen then [] :: b :: bs else (l :: b) :: bs

/-- Non-blank lines after trimming. -/
def nonBlankCount (ls : List Str) : Nat :=
  ((ls.map strip).filter (fun l => !l.isEmpty)).length

/-- The number of record blocks with at least three non-blank lines, with
blocks delimited by separator lines — the claim's stated reading. -/
def claimBlockCount (content : Str) : Nat :=
  (splitLinesOnSep (pySplit (['\n']) content)).countP
    (fun ls => decide (3 ≤ nonBlankCount ls))

/-! Sanity check: the doctest of `parse_clippings` (lines 41-62). -/

def doctestContent : Str :=
  ("\nSteven Low, DPT - Overcoming Gravity\n- Your Highlight on Location 2572-2573 | Added on Tuesday, July 2, 2024 12:08:10 AM\n\ninverted hang and then back again\n==========\nSteven Low, DPT - Overcoming Gravity\n- Your Highlight on Location 3042-3043 | Added on Friday, July 12, 2024 1:45:31 AM\n\nPlanche isometrics fall solidly into the\n==========\nSteven Low - Overcoming Gravity Advanced Programming\n- Your Highlight on page 11 | Location 170-172 | Added on Sunday, February 9, 2025 12:26:53 PM\n\nSince your goal is primarily strength increases\n==========\nАдитья Бхаргава - Грокаем алгоритмы\n- Your Bookmark on page 343 | Added on Sunday, February 16, 2025 10:08:13 PM\n").toList

set_option maxRecDepth 8000 in
theorem parse_clippings_doctest :
    parse_clippings doctestContent =
      [⟨"Steven Low, DPT - Overcoming Gravity".toList,
        "inverted hang and then back again".toList,
        some highlightS, none, some "2572-2573".toList⟩,
       ⟨"Steven Low, DPT - Overcoming Gravity".toList,
        "Planche isometrics fall solidly into the".toList,
        some highlightS, none, some "3042-3043".toList⟩,
       ⟨"Steven Low - Overcoming Gravity Advanced Programming".toList,
        "Since your goal is primarily strength increases".toList,
        some highlightS, some "11".toList, some "170-172".toList⟩] := by decide

/-! ## Basic lemmas about the string primitives -/

theorem dropStart?_self_append (p : Str) : ∀ s : Str, dropStart? p (p ++ s) = some s := by
  induction p with
  | nil => intro s; rfl
  | cons c cs ih => intro s; simp [dropStart?, ih]

theorem dropStart?_eq_some {p : Str} :
    ∀ {s r : Str}, dropStart? p s = some r → s = p ++ r := by
  induction p with
  | nil => intro s r h; simp [dropStart?] at h; simp [h]
  | cons c cs ih =>
    intro s r h
    cases s with
    | nil => simp [dropStart?] at h
    | cons a as =>
      simp only [dropStart?] at h
      by_cases hc : c = a
      · subst hc
        simp only [if_pos rfl] at h
        simp [ih h]
      · simp [if_neg hc] at h

theorem dropStart?_length {p s r : Str} (h : dropStart? p s = some r) :
    s.length = p.length + r.length := by
  rw [dropStart?_eq_some h]; simp

/-- Splitting a digit run off the front: if all of `a` is digits and `b`
does not start with a digit, `takeWhile`/`dropWhile` recover exactly `a`
and `b`. -/
theorem digitsSplit (a : Str) :
    ∀ b : Str, (∀ c ∈ a, Char.isDigit c = true) →
      (∀ c, b.head? = some c → Char.isDigit c = false) →
      (a ++ b).takeWhile Char.isDigit = a ∧
        (a ++ b).dropWhile Char.isDigit = b := by
  induction a with
  | nil =>
    intro b _ hb
    cases b with
    | nil => exact ⟨rfl, rfl⟩
    | cons c cs =>
      have : Char.isDigit c = false := hb c rfl
      constructor
      · simp [List.takeWhile, this]
      · simp [List.dropWhile, this]
  | cons c cs ih =>
    intro b ha hb
    have hc : Char.isDigit c = true := ha c (by simp)
    have ih2 := ih b (fun x hx => ha x (by simp [hx])) hb
    constructor
    · simp [List.takeWhile, hc, ih2.1]
    · simp [List.dropWhile, hc, ih2.2]

theorem findSub_bound {needle : Str} :
    ∀ {hay : Str} {i : Nat}, findSub needle hay = some i →
      i + needle.length ≤ hay.length := by
  intro hay
  induction hay with
  | nil =>
    intro i h
    simp only [findSub] at h
    by_cases he : needle.isEmpty
    · rw [if_pos he] at h
      cases h
      simp [List.isEmpty_iff.mp he]
    · rw [if_neg he] at h
      exact Option.noConfusion h
  | cons c rest ih =>
    intro i h
    simp only [findSub] at h
    by_cases hd : (dropStart? needle (c :: rest)).isSome
    · rw [if_pos hd] at h
      cases h
      obtain ⟨r, hr⟩ := Option.isSome_iff_exists.mp hd
      have := dropStart?_length hr
      simp only [List.length_cons] at this ⊢
      omega
    · rw [if_neg hd] at h
      cases hfind : findSub needle rest with
      | none =>
        rw [hfind, Option.map_none'] at h
        exact Option.noConfusion h
      | some j =>
        rw [hfind, Option.map_some'] at h
        cases h
        have := ih hfind
        simp only [List.length_cons]
        omega

/-- The empty key is contained in every string (Python: `"" in s` is `True`). -/
theorem containsSub_nil (s : Str) : containsSub [] s = true := by
  cases s with
  | nil => rfl
  | cons c rest => simp [containsSub, dropStart?]

/-! ## Metadata extractor: grammar-shape constructors and predicates -/

/-- `Bookmark` or `Highlight`. -/
def KindStr (k : Str) : Prop := k = bookmarkS ∨ k = highlightS

/-- A nonempty string of (ASCII) digits — the language of `\d+`. -/
def NumStr (s : Str) : Prop := s ≠ [] ∧ ∀ c ∈ s, Char.isDigit c = true

/-- The language of `\d+(-\d+)?`: a number or a hyphenated range. -/
def NumRangeStr (s : Str) : Prop :=
  NumStr s ∨ ∃ a b, NumStr a ∧ NumStr b ∧ s = a ++ '-' :: b

/-- Shape 1 of the grammar: `- Your K on page P | Location L | Added...`. -/
def mkShape1 (k p l rest : Str) : Str :=
  yourPre ++ k ++ onMid ++ pageSp ++ p ++ locMid ++ l ++ addedTail ++ rest

/-- Shape 2 of the grammar: `- Your K on page P | Added...`. -/
def mkShape2 (k p rest : Str) : Str :=
  yourPre ++ k ++ onMid ++ pageSp ++ p ++ addedTail ++ rest

/-- Shape 3 of the grammar: `- Your K on Location L | Added...`. -/
def mkShape3 (k l rest : Str) : Str :=
  yourPre ++ k ++ onMid ++ locSp ++ l ++ addedTail ++ rest

/-- A line matching one of the three recognized grammar shapes. -/
def MatchesShape (line : Str) : Prop :=
  (∃ k p l rest, KindStr k ∧ NumStr p ∧ NumRangeStr l ∧ line = mkShape1 k p l rest) ∨
  (∃ k p rest, KindStr k ∧ NumRangeStr p ∧ line = mkShape2 k p rest) ∨
  (∃ k l rest, KindStr k ∧ NumRangeStr l ∧ line = mkShape3 k l rest)

/-! Literal-mismatch facts, each decided inside the concrete prefix region
(the symbolic tail is never examined). -/

theorem dsBookHigh (x : Str) : dropStart? bookmarkS (highlightS ++ x) = none := rfl

theorem dsPageLocSp (x : Str) : dropStart? pageSp (locSp ++ x) = none := rfl

theorem dsLocSpPage (x : Str) : dropStart? locSp (pageSp ++ x) = none := rfl

theorem dsAddedLocMid (x : Str) : dropStart? addedTail (locMid ++ x) = none := rfl

theorem dsAddedDash (x : Str) : dropStart? addedTail ('-' :: x) = none := rfl

theorem dsLocMidDash (x : Str) : dropStart? locMid ('-' :: x) = none := rfl

theorem headAdded (x : Str) : (addedTail ++ x).head? = some ' ' := rfl

theorem headLocMid (x : Str) : (locMid ++ x).head? = some ' ' := rfl

theorem nondigitAdded (x : Str) :
    ∀ c, (addedTail ++ x).head? = some c → Char.isDigit c = false := by
  intro c hc
  rw [headAdded] at hc
  cases hc
  decide

theorem nondigitLocMid (x : Str) :
    ∀ c, (locMid ++ x).head? = some c → Char.isDigit c = false := by
  intro c hc
  rw [headLocMid] at hc
  cases hc
  decide

theorem nondigitDash (x : Str) :
    ∀ c, ('-' :: x).head? = some c → Char.isDigit c = false := by
  intro c hc
  simp only [List.head?_cons, Option.some.injEq] at hc
  cases hc
  decide

theorem nonempty_isEmpty_false {l : Str} (h : l ≠ []) : l.isEmpty = false := by
  cases l with
  | nil => exact absurd rfl h
  | cons c cs => rfl

theorem NumRangeStr_ne_nil {s : Str} (h : NumRangeStr s) : s ≠ [] := by
  rcases h with ⟨hne, _⟩ | ⟨a, b, _, _, hs⟩
  · exact hne
  · subst hs; simp

/-! ## Metadata extractor: soundness of the three shapes -/

/-- If the continuation accepts the whole `\d+(-\d+)?` text `n` with the
remainder `tail` (which starts with a space, as every continuation literal
in the pattern does), `tryNumRange` returns its answer. -/
theorem tryNumRange_append_some {n tail : Str} (hn : NumRangeStr n)
    (hsp : tail.head? = some ' ') (k : Str → Str → Option Groups0) {g : Groups0}
    (hk : k n tail = some g) :
    tryNumRange (n ++ tail) k = some g := by
  have hnd : ∀ c, tail.head? = some c → Char.isDigit c = false := by
    intro c hc; rw [hsp] at hc; cases hc; decide
  rcases hn with hnum | ⟨a, b, ha, hb, hs⟩
  · have hsplit := digitsSplit n tail hnum.2 hnd
    simp only [tryNumRange, hsplit.1, hsplit.2, nonempty_isEmpty_false hnum.1,
      Bool.false_eq_true, if_false, hsp]
    simp [hk]
  · subst hs
    have hassoc : (a ++ '-' :: b) ++ tail = a ++ ('-' :: (b ++ tail)) := by simp
    rw [hassoc]
    have hsplit1 := digitsSplit a ('-' :: (b ++ tail)) ha.2 (nondigitDash _)
    simp only [tryNumRange, hsplit1.1, hsplit1.2, nonempty_isEmpty_false ha.1,
      Bool.false_eq_true, if_false, List.head?_cons, if_pos rfl, List.tail_cons]
    have hsplit2 := digitsSplit b tail hb.2 hnd
    simp only [hsplit2.1, hsplit2.2, nonempty_isEmpty_false hb.1,
      Bool.false_eq_true, if_false]
    simp [hk]

/-- `alt1` accepts the page-only body. -/
theorem alt1_shape2 (p rest : Str) (hp : NumRangeStr p) :
    alt1 (pageSp ++ (p ++ (addedTail ++ rest))) = some ⟨some p, none, none, none⟩ := by
  simp only [alt1, dropStart?_self_append]
  exact tryNumRange_append_some hp (headAdded rest) _ (by simp [dropStart?_self_append])

/-- `alt2` accepts the location-only body. -/
theorem alt2_shape3 (l rest : Str) (hl : NumRangeStr l) :
    alt2 (locSp ++ (l ++ (addedTail ++ rest))) = some ⟨none, some l, none, none⟩ := by
  simp only [alt2, dropStart?_self_append]
  exact tryNumRange_append_some hl (headAdded rest) _ (by simp [dropStart?_self_append])

/-- `alt1` rejects a location-only body (`page ` vs `Location `). -/
theorem alt1_on_loc (x : Str) : alt1 (locSp ++ x) = none := by
  simp [alt1, dsPageLocSp]

/-- `alt2` rejects a page body (`Location ` vs `page `). -/
theorem alt2_on_page (x : Str) : alt2 (pageSp ++ x) = none := by
  simp [alt2, dsLocSpPage]

/-- `alt1` rejects the combined body: after the page number it demands
` | Added` but faces ` | Location`. -/
theorem alt1_on_shape1 (p l rest : Str) (hp : NumStr p) :
    alt1 (pageSp ++ (p ++ (locMid ++ (l ++ (addedTail ++ rest))))) = none := by
  simp only [alt1, dropStart?_self_append]
  have hsplit := digitsSplit p (locMid ++ (l ++ (addedTail ++ rest))) hp.2 (nondigitLocMid _)
  simp only [tryNumRange, hsplit.1, hsplit.2, nonempty_isEmpty_false hp.1,
    Bool.false_eq_true, if_false, headLocMid]
  simp [dsAddedLocMid]

/-- `alt3` accepts the combined body. -/
theorem alt3_shape1 (p l rest : Str) (hp : NumStr p) (hl : NumRangeStr l) :
    alt3 (pageSp ++ (p ++ (locMid ++ (l ++ (addedTail ++ rest))))) =
      some ⟨none, none, some p, some l⟩ := by
  simp only [alt3, dropStart?_self_append]
  have hsplit := digitsSplit p (locMid ++ (l ++ (addedTail ++ rest))) hp.2 (nondigitLocMid _)
  simp only [hsplit.1, hsplit.2, nonempty_isEmpty_false hp.1,
    Bool.false_eq_true, if_false, dropStart?_self_append]
  exact tryNumRange_append_some hl (headAdded rest) _ (by simp [dropStart?_self_append])

/-- Reduce `matchMeta` on a line of the anchored form down to the inner
alternation. -/
theorem matchMeta_pre (k x : Str) (hk : KindStr k) :
    matchMeta (yourPre ++ (k ++ (onMid ++ x))) =
      match altAll x with
      | none => none
      | some g0 => some ⟨k, g0.pg_only, g0.loc_only, g0.pg, g0.loc⟩ := by
  rcases hk with h | h <;> subst h
  · simp only [matchMeta, dropStart?_self_append, matchKind]
  · simp only [matchMeta, dropStart?_self_append, matchKind, dsBookHigh]

theorem parse_meta_shape1 (k p l rest : Str) (hk : KindStr k) (hp : NumStr p)
    (hl : NumRangeStr l) :
    parse_meta (mkShape1 k p l rest) = ⟨some k, some p, some l⟩ := by
  have h := matchMeta_pre k (pageSp ++ (p ++ (locMid ++ (l ++ (addedTail ++ rest))))) hk
  rw [altAll, alt1_on_shape1 p l rest hp, alt2_on_page, alt3_shape1 p l rest hp hl] at h
  rw [mkShape1, parse_meta]
  rw [show yourPre ++ k ++ onMid ++ pageSp ++ p ++ locMid ++ l ++ addedTail ++ rest =
        yourPre ++ (k ++ (onMid ++ (pageSp ++ (p ++ (locMid ++ (l ++ (addedTail ++ rest)))))) ) from by simp]
  rw [h]
  simp [pyOr]

theorem parse_meta_shape2 (k p rest : Str) (hk : KindStr k) (hp : NumRangeStr p) :
    parse_meta (mkShape2 k p rest) = ⟨some k, some p, none⟩ := by
  have h := matchMeta_pre k (pageSp ++ (p ++ (addedTail ++ rest))) hk
  rw [altAll, alt1_shape2 p rest hp] at h
  rw [mkShape2, parse_meta]
  rw [show yourPre ++ k ++ onMid ++ pageSp ++ p ++ addedTail ++ rest =
        yourPre ++ (k ++ (onMid ++ (pageSp ++ (p ++ (addedTail ++ rest))))) from by simp]
  rw [h]
  simp [pyOr, nonempty_isEmpty_false (NumRangeStr_ne_nil hp)]

theorem parse_meta_shape3 (k l rest : Str) (hk : KindStr k) (hl : NumRangeStr l) :
    parse_meta (mkShape3 k l rest) = ⟨some k, none, some l⟩ := by
  have h := matchMeta_pre k (locSp ++ (l ++ (addedTail ++ rest))) hk
  rw [altAll, alt1_on_loc, alt2_shape3 l rest hl] at h
  rw [mkShape3, parse_meta]
  rw [show yourPre ++ k ++ onMid ++ locSp ++ l ++ addedTail ++ rest =
        yourPre ++ (k ++ (onMid ++ (locSp ++ (l ++ (addedTail ++ rest))))) from by simp]
  rw [h]
  simp [pyOr, nonempty_isEmpty_false (NumRangeStr_ne_nil hl)]

/-! ## Metadata extractor: completeness (a successful match has one of the
three shapes) -/

theorem mem_takeWhile_digit {l : Str} {c : Char}
    (h : c ∈ l.takeWhile Char.isDigit) : Char.isDigit c = true := by
  induction l with
  | nil => simp [List.takeWhile] at h
  | cons a as ih =>
    simp only [List.takeWhile] at h
    cases hd : Char.isDigit a with
    | false => rw [hd] at h; simp at h
    | true =>
      rw [hd] at h
      rcases List.mem_cons.mp h with h1 | h1
      · subst h1; exact hd
      · exact ih h1

theorem isEmpty_false_ne_nil {l : Str} (h : l.isEmpty = false) : l ≠ [] := by
  cases l with
  | nil => simp at h
  | cons c cs => simp

theorem head?_dash_cons {l : Str} (h : l.head? = some '-') : l = '-' :: l.tail := by
  cases l with
  | nil => simp at h
  | cons c cs =>
    simp only [List.head?_cons, Option.some.injEq] at h
    subst h; rfl

/-- Inversion for `tryNumRange`: success means the input splits as a
`\d+(-\d+)?` text accepted by the continuation. -/
theorem tryNumRange_some {s : Str} {k : Str → Str → Option Groups0} {g : Groups0}
    (h : tryNumRange s k = some g) :
    ∃ n r, NumRangeStr n ∧ s = n ++ r ∧ k n r = some g := by
  simp only [tryNumRange] at h
  by_cases h1 : (s.takeWhile Char.isDigit).isEmpty
  · rw [if_pos h1] at h; exact Option.noConfusion h
  · rw [if_neg h1] at h
    have hnum : NumStr (s.takeWhile Char.isDigit) :=
      ⟨isEmpty_false_ne_nil (Bool.eq_false_iff.mpr h1), fun c hc => mem_takeWhile_digit hc⟩
    have hsplit : s = s.takeWhile Char.isDigit ++ s.dropWhile Char.isDigit :=
      (List.takeWhile_append_dropWhile Char.isDigit s).symm
    by_cases h2 : (s.dropWhile Char.isDigit).head? = some '-'
    · rw [if_pos h2] at h
      by_cases h3 : ((s.dropWhile Char.isDigit).tail.takeWhile Char.isDigit).isEmpty
      · rw [if_pos h3] at h
        exact ⟨_, _, Or.inl hnum, hsplit, h⟩
      · rw [if_neg h3] at h
        have hmnum : NumStr ((s.dropWhile Char.isDigit).tail.takeWhile Char.isDigit) :=
          ⟨isEmpty_false_ne_nil (Bool.eq_false_iff.mpr h3), fun c hc => mem_takeWhile_digit hc⟩
        have htail : (s.dropWhile Char.isDigit).tail =
            (s.dropWhile Char.isDigit).tail.takeWhile Char.isDigit ++
              (s.dropWhile Char.isDigit).tail.dropWhile Char.isDigit :=
          (List.takeWhile_append_dropWhile Char.isDigit
            (s.dropWhile Char.isDigit).tail).symm
        have hdash := head?_dash_cons h2
        cases hk : k (s.takeWhile Char.isDigit ++ '-' ::
            (s.dropWhile Char.isDigit).tail.takeWhile Char.isDigit)
            ((s.dropWhile Char.isDigit).tail.dropWhile Char.isDigit) with
        | some g2 =>
          rw [hk] at h
          cases h
          refine ⟨_, _, Or.inr ⟨_, _, hnum, hmnum, rfl⟩, ?_, hk⟩
          rw [hsplit]
          conv_lhs => rw [hdash, htail]
          simp
        | none =>
          rw [hk] at h
          exact ⟨_, _, Or.inl hnum, hsplit, h⟩
    · rw [if_neg h2] at h
      exact ⟨_, _, Or.inl hnum, hsplit, h⟩

theorem alt1_some {s : Str} {g : Groups0} (h : alt1 s = some g) :
    ∃ p rest, NumRangeStr p ∧ s = pageSp ++ (p ++ (addedTail ++ rest)) ∧
      g = ⟨some p, none, none, none⟩ := by
  simp only [alt1] at h
  split at h
  · exact Option.noConfusion h
  rename_i s2 hd
  obtain ⟨n, r, hnr, hs2, hk⟩ := tryNumRange_some h
  split at hk
  · exact Option.noConfusion hk
  rename_i r2 hd2
  cases hk
  exact ⟨n, r2, hnr, by rw [dropStart?_eq_some hd, hs2, dropStart?_eq_some hd2], rfl⟩

theorem alt2_some {s : Str} {g : Groups0} (h : alt2 s = some g) :
    ∃ l rest, NumRangeStr l ∧ s = locSp ++ (l ++ (addedTail ++ rest)) ∧
      g = ⟨none, some l, none, none⟩ := by
  simp only [alt2] at h
  split at h
  · exact Option.noConfusion h
  rename_i s2 hd
  obtain ⟨n, r, hnr, hs2, hk⟩ := tryNumRange_some h
  split at hk
  · exact Option.noConfusion hk
  rename_i r2 hd2
  cases hk
  exact ⟨n, r2, hnr, by rw [dropStart?_eq_some hd, hs2, dropStart?_eq_some hd2], rfl⟩

theorem alt3_some {s : Str} {g : Groups0} (h : alt3 s = some g) :
    ∃ p l rest, NumStr p ∧ NumRangeStr l ∧
      s = pageSp ++ (p ++ (locMid ++ (l ++ (addedTail ++ rest)))) ∧
      g = ⟨none, none, some p, some l⟩ := by
  simp only [alt3] at h
  split at h
  · exact Option.noConfusion h
  rename_i s2 hd
  split at h
  · exact Option.noConfusion h
  rename_i h1
  have hpnum : NumStr (s2.takeWhile Char.isDigit) :=
    ⟨isEmpty_false_ne_nil (Bool.eq_false_iff.mpr h1), fun c hc => mem_takeWhile_digit hc⟩
  split at h
  · exact Option.noConfusion h
  rename_i s3 hd2
  obtain ⟨l, r, hlr, hs3, hk⟩ := tryNumRange_some h
  split at hk
  · exact Option.noConfusion hk
  rename_i r2 hd3
  cases hk
  refine ⟨_, l, r2, hpnum, hlr, ?_, rfl⟩
  rw [dropStart?_eq_some hd]
  conv_lhs => rw [(List.takeWhile_append_dropWhile Char.isDigit s2).symm]
  rw [dropStart?_eq_some hd2, hs3, dropStart?_eq_some hd3]

theorem matchKind_some {s k s2 : Str} (h : matchKind s = some (k, s2)) :
    KindStr k ∧ s = k ++ s2 := by
  simp only [matchKind] at h
  split at h
  · rename_i r hd
    cases h
    exact ⟨Or.inl rfl, dropStart?_eq_some hd⟩
  rename_i hd
  split at h
  · rename_i r hd2
    cases h
    exact ⟨Or.inr rfl, dropStart?_eq_some hd2⟩
  · exact Option.noConfusion h

/-- Completeness: whenever the regular expression matches, the line has one
of the three grammar shapes. -/
theorem matchMeta_some_shape {line : Str} {g : Groups}
    (h : matchMeta line = some g) : MatchesShape line := by
  simp only [matchMeta] at h
  split at h
  · exact Option.noConfusion h
  rename_i s1 hd
  split at h
  · exact Option.noConfusion h
  rename_i ks k s2 hk
  obtain ⟨hkind, hs1⟩ := matchKind_some hk
  split at h
  · exact Option.noConfusion h
  rename_i s3 hd2
  have hline : line = yourPre ++ (k ++ (onMid ++ s3)) := by
    rw [dropStart?_eq_some hd, hs1, dropStart?_eq_some hd2]
  split at h
  · exact Option.noConfusion h
  rename_i g0 ha
  simp only [altAll] at ha
  cases ha1 : alt1 s3 with
  | some g1 =>
    obtain ⟨p, rest, hp, hs3, _⟩ := alt1_some ha1
    refine Or.inr (Or.inl ⟨k, p, rest, hkind, hp, ?_⟩)
    rw [hline, hs3, mkShape2]
    simp
  | none =>
    rw [ha1] at ha
    cases ha2 : alt2 s3 with
    | some g2 =>
      obtain ⟨l, rest, hl, hs3, _⟩ := alt2_some ha2
      refine Or.inr (Or.inr ⟨k, l, rest, hkind, hl, ?_⟩)
      rw [hline, hs3, mkShape3]
      simp
    | none =>
      rw [ha2] at ha
      obtain ⟨p, l, rest, hp, hl, hs3, _⟩ := alt3_some ha
      refine Or.inl ⟨k, p, l, rest, hkind, hp, hl, ?_⟩
      rw [hline, hs3, mkShape1]
      simp

/-- A line with none of the three shapes parses to all-absent fields. -/
theorem parse_meta_no_shape {line : Str} (h : ¬ MatchesShape line) :
    parse_meta line = ⟨none, none, none⟩ := by
  cases hm : matchMeta line with
  | none => simp [parse_meta, hm]
  | some g => exact absurd (matchMeta_some_shape hm) h

/-- Scenario 1's literal metadata line. -/
def scenario1 : Str :=
  "- Your Highlight on Location 2572-2573 | Added on Tuesday, July 2, 2024 12:08:10 AM".toList

/-- C1: for every metadata line of one of the three recognized grammar
shapes, `parse_meta` returns exactly the specified fields (page+location ⇒
both; page-only ⇒ page only, P a number or hyphenated range; location-only
⇒ location only), for every line matching none of the shapes it returns
kind, page and location all absent, and on the literal Scenario 1 line it
yields Highlight with location `2572-2573` and no page. -/
theorem c1_parse_meta_grammar :
    (∀ k p l rest, KindStr k → NumStr p → NumRangeStr l →
      parse_meta (mkShape1 k p l rest) = ⟨some k, some p, some l⟩) ∧
    (∀ k p rest, KindStr k → NumRangeStr p →
      parse_meta (mkShape2 k p rest) = ⟨some k, some p, none⟩) ∧
    (∀ k l rest, KindStr k → NumRangeStr l →
      parse_meta (mkShape3 k l rest) = ⟨some k, none, some l⟩) ∧
    (∀ line, ¬ MatchesShape line → parse_meta line = ⟨none, none, none⟩) ∧
    parse_meta scenario1 = ⟨some highlightS, none, some "2572-2573".toList⟩ := by
  refine ⟨parse_meta_shape1, parse_meta_shape2, parse_meta_shape3,
    fun line h => parse_meta_no_shape h, by decide⟩

/-- Witness for C1: the shape-3 clause applied to the Scenario 1 line. -/
theorem c1_parse_meta_grammar_witness :
    KindStr highlightS ∧ NumRangeStr "2572-2573".toList ∧
      parse_meta (mkShape3 highlightS "2572-2573".toList
          " on Tuesday, July 2, 2024 12:08:10 AM".toList) =
        ⟨some highlightS, none, some "2572-2573".toList⟩ :=
  ⟨Or.inr rfl,
   Or.inr ⟨"2572".toList, "2573".toList, ⟨by decide, by decide⟩, ⟨by decide, by decide⟩, by decide⟩,
   c1_parse_meta_grammar.2.2.1 highlightS "2572-2573".toList
     " on Tuesday, July 2, 2024 12:08:10 AM".toList (Or.inr rfl)
     (Or.inr ⟨"2572".toList, "2573".toList, ⟨by decide, by decide⟩, ⟨by decide, by decide⟩, by decide⟩)⟩

/-- The combined shape with a hyphenated page range:
`- Your K on page N-M | Location L | Added...`. -/
def mkShape1R (k n m l rest : Str) : Str :=
  yourPre ++ k ++ onMid ++ pageSp ++ n ++ ('-' :: m) ++ locMid ++ l ++ addedTail ++ rest

/-- C10: in the combined page-and-location shape the page is accepted only
as a single number; with a hyphenated page range the whole match fails and
every field is absent. -/
theorem c10_combined_range_page (k n m l rest : Str) (hk : KindStr k)
    (hn : NumStr n) (hm : NumStr m) (_hl : NumRangeStr l) :
    parse_meta (mkShape1R k n m l rest) = ⟨none, none, none⟩ := by
  have hpre := matchMeta_pre k
    (pageSp ++ (n ++ ('-' :: (m ++ (locMid ++ (l ++ (addedTail ++ rest))))))) hk
  have halt1 : alt1 (pageSp ++ (n ++ ('-' :: (m ++ (locMid ++ (l ++ (addedTail ++ rest))))))) = none := by
    simp only [alt1, dropStart?_self_append]
    have hsplit1 := digitsSplit n ('-' :: (m ++ (locMid ++ (l ++ (addedTail ++ rest)))))
      hn.2 (nondigitDash _)
    simp only [tryNumRange, hsplit1.1, hsplit1.2, nonempty_isEmpty_false hn.1,
      Bool.false_eq_true, if_false, List.head?_cons, if_pos rfl, List.tail_cons]
    have hsplit2 := digitsSplit m (locMid ++ (l ++ (addedTail ++ rest)))
      hm.2 (nondigitLocMid _)
    simp only [hsplit2.1, hsplit2.2, nonempty_isEmpty_false hm.1,
      Bool.false_eq_true, if_false]
    simp [dsAddedLocMid, dsAddedDash]
  have halt3 : alt3 (pageSp ++ (n ++ ('-' :: (m ++ (locMid ++ (l ++ (addedTail ++ rest))))))) = none := by
    simp only [alt3, dropStart?_self_append]
    have hsplit1 := digitsSplit n ('-' :: (m ++ (locMid ++ (l ++ (addedTail ++ rest)))))
      hn.2 (nondigitDash _)
    simp only [hsplit1.1, hsplit1.2, nonempty_isEmpty_false hn.1,
      Bool.false_eq_true, if_false]
    simp [dsLocMidDash]
  rw [altAll, halt1, alt2_on_page, halt3] at hpre
  rw [mkShape1R, parse_meta]
  rw [show yourPre ++ k ++ onMid ++ pageSp ++ n ++ ('-' :: m) ++ locMid ++ l ++ addedTail ++ rest =
        yourPre ++ (k ++ (onMid ++ (pageSp ++ (n ++ ('-' :: (m ++ (locMid ++ (l ++ (addedTail ++ rest))))))))) from by simp]
  rw [hpre]

/-- Witness for C10: the concrete line
`- Your Bookmark on page 343-344 | Location 170-172 | Added on Sunday, February 16, 2025 10:08:13 PM`. -/
theorem c10_combined_range_page_witness :
    KindStr bookmarkS ∧ NumStr "343".toList ∧ NumStr "344".toList ∧
      NumRangeStr "170-172".toList ∧
      parse_meta (mkShape1R bookmarkS "343".toList "344".toList "170-172".toList
          " on Sunday, February 16, 2025 10:08:13 PM".toList) = ⟨none, none, none⟩ :=
  ⟨Or.inl rfl, ⟨by decide, by decide⟩, ⟨by decide, by decide⟩,
   Or.inr ⟨"170".toList, "172".toList, ⟨by decide, by decide⟩, ⟨by decide, by decide⟩, by decide⟩,
   c10_combined_range_page bookmarkS "343".toList "344".toList "170-172".toList
     " on Sunday, February 16, 2025 10:08:13 PM".toList (Or.inl rfl)
     ⟨by decide, by decide⟩ ⟨by decide, by decide⟩
     (Or.inr ⟨"170".toList, "172".toList, ⟨by decide, by decide⟩, ⟨by decide, by decide⟩, by decide⟩)⟩

/-! ## Annotation parser: grouping lemmas -/

/-- The keys of the association list, in insertion order. -/
def keysOf (m : List (Str × List Note)) : List Str := m.map Prod.fst

/-- The value list stored under a key (empty when absent). -/
def bucket : List (Str × List Note) → Str → List Note
  | [], _ => []
  | (k, v) :: rest, b => if k = b then v else bucket rest b

theorem bucket_addNote (b c : Str) (a : Note) :
    ∀ m, bucket (addNote m b a) c = if c = b then bucket m c ++ [a] else bucket m c := by
  intro m
  induction m with
  | nil =>
    by_cases hcb : c = b
    · subst hcb; simp [addNote, bucket]
    · simp [addNote, bucket, hcb, Ne.symm hcb]
  | cons kv rest ih =>
    obtain ⟨k, v⟩ := kv
    by_cases hkb : k = b
    · subst hkb
      by_cases hck : c = k
      · subst hck; simp [addNote, bucket]
      · simp [addNote, bucket, hck, Ne.symm hck]
    · by_cases hck : c = k
      · subst hck
        have hcb : ¬ c = b := hkb
        simp [addNote, bucket, hkb, hcb]
      · simp [addNote, bucket, hkb, Ne.symm hck, ih]

/-- Pointwise-equal functions map lists equally (on members). -/
theorem map_congr_mem {α β : Type} (f g : α → β) :
    ∀ l : List α, (∀ a ∈ l, f a = g a) → l.map f = l.map g := by
  intro l
  induction l with
  | nil => intro _; rfl
  | cons a rest ih =>
    intro h
    simp only [List.map_cons]
    rw [h a (by simp), ih (fun x hx => h x (by simp [hx]))]

theorem keysOf_addNote (b : Str) (a : Note) :
    ∀ m, keysOf (addNote m b a) =
      if b ∈ keysOf m then keysOf m else keysOf m ++ [b] := by
  intro m
  induction m with
  | nil => simp [addNote, keysOf]
  | cons kv rest ih =>
    obtain ⟨k, v⟩ := kv
    by_cases hkb : k = b
    · subst hkb; simp [addNote, keysOf]
    · simp only [addNote, if_neg hkb, keysOf, List.map_cons] at ih ⊢
      rw [ih]
      by_cases hb : b ∈ List.map Prod.fst rest
      · rw [if_pos hb, if_pos (List.mem_cons_of_mem k hb)]
      · rw [if_neg hb, if_neg (by simp [List.mem_cons, hb, Ne.symm hkb]),
          List.cons_append]

theorem length_flattenValues_addNote (b : Str) (a : Note) :
    ∀ m, (flattenValues (addNote m b a)).length = (flattenValues m).length + 1 := by
  intro m
  induction m with
  | nil => simp [addNote, flattenValues]
  | cons kv rest ih =>
    obtain ⟨k, v⟩ := kv
    by_cases hkb : k = b
    · subst hkb
      simp [addNote, flattenValues]
      omega
    · simp only [addNote, if_neg hkb, flattenValues, List.map_cons, List.flatten_cons,
        List.length_append]
      simp only [flattenValues] at ih
      omega

/-- Bridge: the fold of `parse_clippings` over entries equals the plain
fold over the accepted records. -/
theorem foldl_entries :
    ∀ (l : List Str) (m : List (Str × List Note)),
      l.foldl (fun m e =>
        match parseEntry? e with
        | some a => addNote m a.book a
        | none => m) m =
      (l.filterMap parseEntry?).foldl (fun m a => addNote m a.book a) m := by
  intro l
  induction l with
  | nil => intro m; rfl
  | cons e rest ih =>
    intro m
    cases hpe : parseEntry? e with
    | some a => simp [List.foldl_cons, List.filterMap_cons, hpe, ih]
    | none => simp [List.foldl_cons, List.filterMap_cons, hpe, ih]

theorem bucket_foldl (c : Str) :
    ∀ (l : List Note) (m : List (Str × List Note)),
      bucket (l.foldl (fun m a => addNote m a.book a) m) c =
        bucket m c ++ l.filter (fun a => a.book == c) := by
  intro l
  induction l with
  | nil => intro m; simp
  | cons a rest ih =>
    intro m
    rw [List.foldl_cons, ih, bucket_addNote a.book c a m, List.filter_cons]
    by_cases hac : a.book = c
    · rw [if_pos (show c = a.book from hac.symm), if_pos (by simp [beq_iff_eq, hac])]
      simp
    · rw [if_neg (fun h : c = a.book => hac h.symm),
        if_neg (by simp [beq_iff_eq, hac])]

theorem keysOf_foldl :
    ∀ (l : List Note) (m : List (Str × List Note)),
      keysOf (l.foldl (fun m a => addNote m a.book a) m) =
        l.foldl (fun ks a => if a.book ∈ ks then ks else ks ++ [a.book]) (keysOf m) := by
  intro l
  induction l with
  | nil => intro m; rfl
  | cons a rest ih =>
    intro m
    rw [List.foldl_cons, ih, keysOf_addNote, List.foldl_cons]

theorem ksFold_nodup :
    ∀ (l : List Note) (ks : List Str), ks.Nodup →
      (l.foldl (fun ks a => if a.book ∈ ks then ks else ks ++ [a.book]) ks).Nodup := by
  intro l
  induction l with
  | nil => intro ks h; exact h
  | cons a rest ih =>
    intro ks h
    rw [List.foldl_cons]
    by_cases hm : a.book ∈ ks
    · rw [if_pos hm]; exact ih ks h
    · rw [if_neg hm]
      refine ih _ ?_
      rw [List.nodup_append]
      exact ⟨h, List.nodup_singleton _, by simp [List.Disjoint]; intro x hx hxa; subst hxa; exact hm hx⟩

theorem ksFold_mem_mono :
    ∀ (l : List Note) (ks : List Str) (b : Str), b ∈ ks →
      b ∈ l.foldl (fun ks a => if a.book ∈ ks then ks else ks ++ [a.book]) ks := by
  intro l
  induction l with
  | nil => intro ks b h; exact h
  | cons a rest ih =>
    intro ks b h
    rw [List.foldl_cons]
    by_cases hm : a.book ∈ ks
    · rw [if_pos hm]; exact ih ks b h
    · rw [if_neg hm]; exact ih _ b (List.mem_append_left _ h)

theorem ksFold_covers :
    ∀ (l : List Note) (ks : List Str) (a : Note), a ∈ l →
      a.book ∈ l.foldl (fun ks a => if a.book ∈ ks then ks else ks ++ [a.book]) ks := by
  intro l
  induction l with
  | nil => intro ks a h; simp at h
  | cons a0 rest ih =>
    intro ks a h
    rw [List.foldl_cons]
    rcases List.mem_cons.mp h with h1 | h1
    · subst h1
      by_cases hm : a.book ∈ ks
      · rw [if_pos hm]; exact ksFold_mem_mono rest ks a.book hm
      · rw [if_neg hm]
        exact ksFold_mem_mono rest _ a.book (List.mem_append_right _ (by simp))
    · by_cases hm : a0.book ∈ ks
      · rw [if_pos hm]; exact ih ks a h1
      · rw [if_neg hm]; exact ih _ a h1

theorem flattenValues_eq_flatMap :
    ∀ m : List (Str × List Note), (keysOf m).Nodup →
      flattenValues m = ((keysOf m).map (bucket m)).flatten := by
  intro m
  induction m with
  | nil => intro h; rfl
  | cons kv rest ih =>
    obtain ⟨k, v⟩ := kv
    intro h
    have hk : k ∉ keysOf rest := by
      simp only [keysOf, List.map_cons, List.nodup_cons] at h
      exact h.1
    have hrest : (keysOf rest).Nodup := by
      simp only [keysOf, List.map_cons, List.nodup_cons] at h
      exact h.2
    have hhead : bucket ((k, v) :: rest) k = v := by simp [bucket]
    have hcongr : List.map (bucket ((k, v) :: rest)) (keysOf rest)
        = List.map (bucket rest) (keysOf rest) := by
      refine map_congr_mem _ _ _ ?_
      intro c hc
      have hne : k ≠ c := fun he => hk (he ▸ hc)
      simp [bucket, hne]
    calc flattenValues ((k, v) :: rest)
        = v ++ flattenValues rest := by simp [flattenValues]
      _ = v ++ (List.map (bucket rest) (keysOf rest)).flatten := by rw [ih hrest]
      _ = bucket ((k, v) :: rest) k ++
            (List.map (bucket ((k, v) :: rest)) (keysOf rest)).flatten := by
          rw [hhead, hcongr]
      _ = (List.map (bucket ((k, v) :: rest)) (keysOf ((k, v) :: rest))).flatten := by
          simp [keysOf]

theorem filter_flatten (p : Note → Bool) :
    ∀ L : List (List Note), (L.flatten).filter p = (L.map (List.filter p)).flatten := by
  intro L
  induction L with
  | nil => rfl
  | cons l rest ih => simp [List.filter_append, ih]

theorem filter_book_twice (k b : Str) :
    ∀ ns : List Note,
      (ns.filter (fun a => a.book == k)).filter (fun a => a.book == b)
        = if k = b then ns.filter (fun a => a.book == b) else [] := by
  intro ns
  induction ns with
  | nil => simp
  | cons a rest ih =>
    by_cases hkb : k = b
    · subst hkb
      rw [if_pos rfl] at ih ⊢
      rw [List.filter_cons]
      by_cases hak : a.book = k
      · rw [if_pos (by simp [beq_iff_eq, hak]), List.filter_cons,
          if_pos (by simp [beq_iff_eq, hak]), ih]
      · rw [if_neg (by simp [beq_iff_eq, hak]), ih]
    · rw [if_neg hkb] at ih ⊢
      rw [List.filter_cons]
      by_cases hak : a.book = k
      · have hab : ¬ a.book = b := fun h => hkb (hak.symm.trans h)
        rw [if_pos (by simp [beq_iff_eq, hak]), List.filter_cons,
          if_neg (by simp [beq_iff_eq, hab]), ih]
      · rw [if_neg (by simp [beq_iff_eq, hak]), ih]

theorem flatten_filter_keys (ns : List Note) (b : Str) :
    ∀ keys : List Str, keys.Nodup →
      ((keys.map (fun k =>
          (ns.filter (fun a => a.book == k)).filter (fun a => a.book == b))).flatten)
        = if b ∈ keys then ns.filter (fun a => a.book == b) else [] := by
  intro keys
  induction keys with
  | nil => intro _; simp
  | cons k rest ih =>
    intro h
    have hk : k ∉ rest := (List.nodup_cons.mp h).1
    have hrest : rest.Nodup := (List.nodup_cons.mp h).2
    simp only [List.map_cons, List.flatten_cons]
    rw [filter_book_twice, ih hrest]
    by_cases hkb : k = b
    · subst hkb
      rw [if_pos rfl, if_neg hk, if_pos (by simp)]
      simp
    · rw [if_neg hkb]
      by_cases hb : b ∈ rest
      · rw [if_pos hb, if_pos (List.mem_cons_of_mem _ hb)]
        simp
      · have hbk : ¬ b = k := fun h => hkb h.symm
        rw [if_neg hb, if_neg (by simp [List.mem_cons, hb, hbk])]
        simp

theorem filter_nil_of_not_firstKey (ns : List Note) (b : Str)
    (h : b ∉ firstKeys ns) : ns.filter (fun a => a.book == b) = [] := by
  rw [List.filter_eq_nil_iff]
  intro a ha
  simp only [beq_iff_eq]
  intro hab
  exact h (hab ▸ ksFold_covers ns [] a ha)

/-- C2: `parse_clippings` groups annotations by raw book title: the output
is the flattening of the per-book groups, the groups ordered by each book's
first appearance, each group being the source-ordered annotations of that
book; consequently filtering the output to one book gives exactly the
source-ordered records of that book. -/
theorem c2_parse_clippings_grouping (content : Str) :
    parse_clippings content = specGroup content ∧
    ∀ b : Str, (parse_clippings content).filter (fun a => a.book == b) =
      (rawNotes content).filter (fun a => a.book == b) := by
  have h1 : parse_clippings content =
      flattenValues ((rawNotes content).foldl (fun m a => addNote m a.book a) []) := by
    rw [show parse_clippings content =
          flattenValues ((pySplit sepTen content).foldl (fun m e =>
            match parseEntry? e with
            | some a => addNote m a.book a
            | none => m) []) from rfl]
    rw [foldl_entries]
    rfl
  have hkeys : keysOf ((rawNotes content).foldl (fun m a => addNote m a.book a) [])
      = firstKeys (rawNotes content) := by
    rw [keysOf_foldl]
    rfl
  have hnodup : (firstKeys (rawNotes content)).Nodup :=
    ksFold_nodup (rawNotes content) [] List.nodup_nil
  have hbucket : ∀ b, bucket ((rawNotes content).foldl (fun m a => addNote m a.book a) []) b
      = (rawNotes content).filter (fun a => a.book == b) := by
    intro b
    rw [bucket_foldl]
    rfl
  have hmain : parse_clippings content = specGroup content := by
    rw [h1, flattenValues_eq_flatMap _ (by rw [hkeys]; exact hnodup), hkeys, specGroup]
    congr 1
    exact map_congr_mem _ _ _ (fun b _ => hbucket b)
  refine ⟨hmain, fun b => ?_⟩
  rw [hmain, specGroup, filter_flatten, List.map_map]
  rw [show ((fun l => List.filter (fun a => a.book == b) l) ∘
        (fun k => (rawNotes content).filter (fun a => a.book == k))) =
      (fun k => ((rawNotes content).filter (fun a => a.book == k)).filter
        (fun a => a.book == b)) from rfl]
  rw [flatten_filter_keys (rawNotes content) b (firstKeys (rawNotes content)) hnodup]
  by_cases hb : b ∈ firstKeys (rawNotes content)
  · rw [if_pos hb]
  · rw [if_neg hb, filter_nil_of_not_firstKey (rawNotes content) b hb]

/-! ## C5: counting accepted blocks -/

theorem countP_congr_mem {α : Type} (p q : α → Bool) :
    ∀ l : List α, (∀ a ∈ l, p a = q a) → l.countP p = l.countP q := by
  intro l
  induction l with
  | nil => intro _; rfl
  | cons a rest ih =>
    intro h
    rw [List.countP_cons, List.countP_cons, h a (by simp),
      ih (fun x hx => h x (by simp [hx]))]

theorem parseEntry?_isSome (e : Str) :
    (parseEntry? e).isSome = decide (3 ≤ (entryLines e).length) := by
  rw [parseEntry?]
  rcases hl : entryLines e with _ | ⟨b, _ | ⟨m, _ | ⟨t, ts⟩⟩⟩ <;> simp

theorem length_fold_countP :
    ∀ (l : List Str) (m : List (Str × List Note)),
      (flattenValues (l.foldl (fun m e =>
        match parseEntry? e with
        | some a => addNote m a.book a
        | none => m) m)).length
      = (flattenValues m).length + l.countP (fun e => (parseEntry? e).isSome) := by
  intro l
  induction l with
  | nil => intro m; simp
  | cons e rest ih =>
    intro m
    rw [List.foldl_cons, List.countP_cons]
    cases hpe : parseEntry? e with
    | some a =>
      rw [ih (addNote m a.book a), length_flattenValues_addNote]
      simp [hpe]
      omega
    | none =>
      rw [ih m]
      simp [hpe]

/-- C5 (amended): the number of records `parse_clippings` returns equals the
number of blocks with at least three non-blank lines after trimming, where
blocks are the segments obtained by splitting the text at every occurrence
of the ten-character `==========` substring (the source splits on the
substring, not on whole lines); smaller blocks are discarded silently. -/
theorem c5_count_amended (content : Str) :
    (parse_clippings content).length =
      (pySplit sepTen content).countP (fun e => decide (3 ≤ (entryLines e).length)) := by
  rw [show parse_clippings content =
        flattenValues ((pySplit sepTen content).foldl (fun m e =>
          match parseEntry? e with
          | some a => addNote m a.book a
          | none => m) []) from rfl]
  rw [length_fold_countP]
  simp only [flattenValues, List.map_nil, List.flatten_nil, List.length_nil, Nat.zero_add]
  exact countP_congr_mem _ _ _ (fun e _ => parseEntry?_isSome e)

/-- A text whose `==========` occurrence sits inside a line: the source
splits there, a separator-line reading does not. -/
def c5Content : Str := "t\nm\nb==========t2\nm2\nb2".toList

/-- C5 (counterexample): with blocks delimited by separator *lines* of ten
`=` characters, as the claim words it, the count differs from what
`parse_clippings` returns — the source splits at every `==========`
substring, even inside a line. -/
theorem c5_count_counterexample :
    (parse_clippings c5Content).length ≠ claimBlockCount c5Content := by decide

/-! ## C3: the context window -/

/-- C3: when the note text first occurs at index `i` in a block of length
`n`, the window is exactly the slice from `max(0, i-200)` to
`min(n, i+len(note)+200)` (natural subtraction realises the `max`); its
length is at most `len(note) + 400`, exactly that when 200 characters exist
on each side, and strictly less when clipped at a boundary. -/
theorem c3_context_window (note block : Str) (i : Nat)
    (h : findSub note block = some i) :
    ∃ w, searchBlock note block = some w ∧
      w = (block.drop (i - 200)).take
            (min block.length (i + note.length + 200) - (i - 200)) ∧
      w.length ≤ note.length + 400 ∧
      (200 ≤ i → i + note.length + 200 ≤ block.length →
        w.length = note.length + 400) ∧
      ((i < 200 ∨ block.length < i + note.length + 200) →
        w.length < note.length + 400) := by
  have hb := findSub_bound h
  refine ⟨_, by simp [searchBlock, h], rfl, ?_, ?_, ?_⟩
  · rw [List.length_take, List.length_drop]
    omega
  · intro h1 h2
    rw [List.length_take, List.length_drop]
    omega
  · intro h1
    rw [List.length_take, List.length_drop]
    omega

/-- Witness for C3: note `ab` found at index 1 of `xab` (clipped window). -/
theorem c3_context_window_witness :
    findSub "ab".toList "xab".toList = some 1 ∧
    (∃ w, searchBlock "ab".toList "xab".toList = some w ∧
      w = (("xab".toList).drop (1 - 200)).take
            (min ("xab".toList).length (1 + ("ab".toList).length + 200) - (1 - 200)) ∧
      w.length ≤ ("ab".toList).length + 400 ∧
      (200 ≤ 1 → 1 + ("ab".toList).length + 200 ≤ ("xab".toList).length →
        w.length = ("ab".toList).length + 400) ∧
      ((1 < 200 ∨ ("xab".toList).length < 1 + ("ab".toList).length + 200) →
        w.length < ("ab".toList).length + 400)) :=
  ⟨by decide, c3_context_window "ab".toList "xab".toList 1 (by decide)⟩

/-! ## C4 and C9: title matching in the context locator -/

theorem findLoop_eq_find? (key note : Str) (srch : BookFile → Str → SearchOutcome) :
    ∀ fs : List BookFile,
      findLoop key note srch fs = (fs.find? (stemMatch key)).map (fun f => srch f note) := by
  intro fs
  induction fs with
  | nil => rfl
  | cons f rest ih =>
    rw [findLoop, List.find?]
    cases hm : stemMatch key f with
    | true => simp [hm]
    | false => simp [hm, ih]

/-- C4: `find_context` derives the key as the lower-cased, trimmed prefix of
`book` before the first `(` (that is `normKey`), considers every epub file
in traversal order before every pdf file, searches exactly the first file
whose lower-cased stem contains the key, and returns an absent result
without error when no stem matches. -/
theorem c4_find_context_matching (note : Note) (lib : Library) :
    (∀ f, lib.epubs.find? (stemMatch (normKey note.book)) = some f →
      find_context note lib = search_epub f note.text) ∧
    (lib.epubs.find? (stemMatch (normKey note.book)) = none →
      ∀ f, lib.pdfs.find? (stemMatch (normKey note.book)) = some f →
        find_context note lib = search_pdf f note.text) ∧
    (lib.epubs.find? (stemMatch (normKey note.book)) = none →
      lib.pdfs.find? (stemMatch (normKey note.book)) = none →
      find_context note lib = .returns ⟨none, false⟩) := by
  refine ⟨?_, ?_, ?_⟩
  · intro f hf
    rw [find_context, findLoop_eq_find?, hf]
    rfl
  · intro he f hf
    rw [find_context, findLoop_eq_find?, he, findLoop_eq_find?, hf]
    rfl
  · intro he hp
    rw [find_context, findLoop_eq_find?, he, findLoop_eq_find?, hp]
    rfl

def c4Note : Note := ⟨"My Book (Special Edition)".toList, "a passage".toList, none, none, none⟩

def c4File : BookFile := ⟨"the-my book-file".toList, .ok []⟩

def c4Lib : Library := ⟨[c4File], []⟩

/-- Witness for C4: the first (and only) epub stem contains the normalized
key `my book`, so its search result is returned. -/
theorem c4_find_context_matching_witness :
    c4Lib.epubs.find? (stemMatch (normKey c4Note.book)) = some c4File ∧
      find_context c4Note c4Lib = search_epub c4File c4Note.text :=
  ⟨by decide, (c4_find_context_matching c4Note c4Lib).1 c4File (by decide)⟩

/-- C9: a book title whose normalized key is empty (for example a title
starting with `(`) matches every stem, so the first epub file — or, with no
epubs, the first pdf file — is searched, whatever the title was. -/
theorem c9_empty_key_first_file :
    (∀ s : Str, containsSub [] s = true) ∧
    ∀ (note : Note) (lib : Library), normKey note.book = [] →
      find_context note lib =
        match lib.epubs with
        | f :: _ => search_epub f note.text
        | [] =>
          match lib.pdfs with
          | f :: _ => search_pdf f note.text
          | [] => .returns ⟨none, false⟩ := by
  refine ⟨containsSub_nil, ?_⟩
  intro note lib hkey
  obtain ⟨epubs, pdfs⟩ := lib
  rw [find_context, hkey]
  cases epubs with
  | cons f rest => simp [findLoop, stemMatch, containsSub_nil]
  | nil =>
    cases pdfs with
    | cons f rest => simp [findLoop, stemMatch, containsSub_nil]
    | nil => simp [findLoop]

def c9Note : Note := ⟨"(2024 edition)".toList, "words".toList, none, none, none⟩

def c9File : BookFile := ⟨"totally unrelated".toList, .ok []⟩

def c9Lib : Library := ⟨[c9File], []⟩

/-- Witness for C9: the title `(2024 edition)` has an empty key and matches
the unrelated first epub. -/
theorem c9_empty_key_first_file_witness :
    normKey c9Note.book = [] ∧
      find_context c9Note c9Lib = search_epub c9File c9Note.text :=
  ⟨by decide, c9_empty_key_first_file.2 c9Note c9Lib (by decide)⟩

/-! ## C6: extraction failures -/

def c6Note : Note := ⟨"Broken Book".toList, "some passage".toList, none, none, none⟩

def c6Pdf : BookFile := ⟨"broken book scan".toList, .otherError⟩

def c6Lib : Library := ⟨[], [c6Pdf]⟩

/-- C6 fails on the code: a matched pdf whose reader fails to open or parse
it makes `search_pdf` — and hence `find_context` and the whole run — raise,
because lines 101-112 have no exception handling; `search_epub` likewise
re-raises everything but `KeyError` (lines 96-97), which is the only case
that degrades to a warning plus an absent result. -/
theorem c6_extraction_failure_propagates :
    find_context c6Note c6Lib = SearchOutcome.raises ∧
    search_pdf c6Pdf "x".toList = SearchOutcome.raises ∧
    search_pdf ⟨"s".toList, ReadResult.keyError⟩ "x".toList = SearchOutcome.raises ∧
    search_epub ⟨"s".toList, ReadResult.otherError⟩ "x".toList = SearchOutcome.raises ∧
    search_epub ⟨"s".toList, ReadResult.keyError⟩ "x".toList
      = SearchOutcome.returns ⟨none, true⟩ := by decide

/-! ## C7: a leading byte-order mark -/

def bomChar : Char := '\uFEFF'

theorem bomChar_is_feff : bomChar.toNat = 0xFEFF := by decide

def c7Content : Str := "Book T\n- meta line\nbody text".toList

/-- C7 fails on the code: the file is read with encoding `utf-8` (not
`utf-8-sig`), so a leading byte-order mark survives as U+FEFF, is not
stripped by `str.strip` (it is not whitespace), and ends up glued to the
first record's book title, changing the parser's output. -/
theorem c7_bom_changes_output :
    parse_clippings (bomChar :: c7Content) ≠ parse_clippings c7Content ∧
    (parse_clippings (bomChar :: c7Content)).map (fun a => a.book)
      = [bomChar :: "Book T".toList] := by decide

/-! ## C8: the report writer -/

/-- On a run where no lookup raises, the writer emits exactly the
concatenation of one four-chunk record per annotation (heading, Note line,
Context line, trailing rule), in the parser's order, and completes. -/
theorem writeReport_no_raise (lib : Library) :
    ∀ notes : List Note,
      (∀ n ∈ notes, find_context n lib ≠ SearchOutcome.raises) →
      writeReport lib notes =
        ((notes.map (fun n => recordFor n (returnedValue (find_context n lib)))).flatten,
          false) := by
  intro notes
  induction notes with
  | nil => intro _; rfl
  | cons n rest ih =>
    intro h
    rw [writeReport]
    cases hf : find_context n lib with
    | raises => exact absurd hf (h n (by simp))
    | returns r =>
      rw [ih (fun x hx => h x (by simp [hx]))]
      simp [recordFor, returnedValue, hf]

/-- An export with two records, the first of a book whose only matching
library file is a corrupt pdf. -/
def c8Content : Str :=
  "Broken Book\n- meta\npassage one\n==========\nFine Book\n- meta\npassage two".toList

def c8BrokenNote : Note := ⟨"Broken Book".toList, "passage one".toList, none, none, none⟩

def c8FineNote : Note := ⟨"Fine Book".toList, "passage two".toList, none, none, none⟩

/-- One readable epub matching the second book, one corrupt pdf matching
the first. -/
def c8Lib : Library :=
  ⟨[⟨"fine book".toList, .ok ["xx passage two yy".toList]⟩],
   [⟨"broken book scan".toList, .otherError⟩]⟩

/-- C8 fails on the code: the parser yields two annotations, the first one's
matched book file fails to parse, and the lookup's exception aborts the
writer loop before anything is written — the report holds no record at all,
dropping the failing annotation and the later one whose own lookup would
have succeeded; the claim's one-record-per-annotation guarantee holds only
on runs where no lookup raises. -/
theorem c8_report_drops_on_raise :
    parse_clippings c8Content = [c8BrokenNote, c8FineNote] ∧
    find_context c8BrokenNote c8Lib = SearchOutcome.raises ∧
    find_context c8FineNote c8Lib ≠ SearchOutcome.raises ∧
    writeReport c8Lib (parse_clippings c8Content) = ([], true) := by decide

end Klippings
